import Mathlib

/-!
Shallow embedding of the two data-cleansing functions of the notebook
`src/notebooks/intro-to-pixie-dust.ipynb`:

* `getNumericVal` (age normalizer): tries Python `int(col)` first; on a
  `ValueError` it falls back to the regular expression `^age\-(\d+)$` and,
  when that matches, converts the captured digit group with `int`; every
  other input yields `None` (here `none`).
* `deriveGender` (salutation-to-gender mapper): exact membership tests of
  the input against the lists `['Mr.', 'Master.']` and `['Mrs.', 'Miss.']`.

Python primitives are embedded over ASCII strings:

* `int(s)` on a string strips surrounding whitespace, then accepts an
  optional sign `+`/`-` followed by a digit part — one or more decimal
  digits with single underscores allowed between digits (CPython's
  `digitpart` grammar).  Failure (`ValueError`) is `none`.
* `re.match('^age\-(\d+)$', s)` (no MULTILINE flag) matches the literal
  prefix `age-` at the start of the string, then one or more digits, and
  the `$` anchor then matches either at the end of the string or just
  before a trailing newline that ends the string.  The greedy `\d+` with
  these anchors matches exactly when the string is `age-` ++ digits,
  optionally followed by one single trailing newline; the captured group
  is the digit run.

Unicode digits and non-ASCII whitespace, which CPython would also accept,
are outside the scope of this ASCII model; all claims below concern ASCII
inputs only.
-/

/-- ASCII decimal digit test (codes 48–57): the characters accepted both by
the `\d` class of the notebook's regular expression and by the digit part
of Python's integer conversion, restricted to ASCII. -/
def isDigitC (c : Char) : Bool :=
  decide (48 ≤ c.toNat) && decide (c.toNat ≤ 57)

/-- ASCII whitespace stripped by Python's `int` conversion before parsing:
space, tab, newline, vertical tab, form feed, carriage return. -/
def isPySpace (c : Char) : Bool :=
  decide (c.toNat = 32) || decide (c.toNat = 9) || decide (c.toNat = 10) ||
  decide (c.toNat = 11) || decide (c.toNat = 12) || decide (c.toNat = 13)

/-- Numeric value of a run of ASCII digit characters, most significant
first — the value `int` computes on a pure digit string. -/
def digitsVal (cs : List Char) : Nat :=
  cs.foldl (fun a c => a * 10 + (c.toNat - 48)) 0

/-- Remove the underscore group separators that Python's integer grammar
permits between digits. -/
def stripUnderscores (cs : List Char) : List Char :=
  cs.filter (fun c => !(c == '_'))

/-- Continuation of Python's `digitpart` grammar after its first digit.
The flag records whether the previous character was an underscore: an
underscore may not follow another underscore and may not end the string,
and every other character must be a digit. -/
def digitTail : List Char → Bool → Bool
  | [], prev => !prev
  | c :: rest, prev =>
    if c = '_' then !prev && digitTail rest true
    else isDigitC c && digitTail rest false

/-- Python's `digitpart` grammar: `digit (["_"] digit)*` — one or more
decimal digits with single underscores allowed between digits. -/
def validDigitPart : List Char → Bool
  | [] => false
  | c :: rest => isDigitC c && digitTail rest false

/-- Python `int` on an already whitespace-stripped character sequence:
an optional `+` or `-` sign followed by a valid digit part; `none` models
the `ValueError` raised on any other input. -/
def pyIntCore (cs : List Char) : Option Int :=
  match cs with
  | [] => none
  | c :: rest =>
    if c = '+' then
      if validDigitPart rest then some ((digitsVal (stripUnderscores rest) : Int)) else none
    else if c = '-' then
      if validDigitPart rest then some (-((digitsVal (stripUnderscores rest) : Int))) else none
    else
      if validDigitPart (c :: rest) then
        some ((digitsVal (stripUnderscores (c :: rest)) : Int))
      else none

/-- Strip leading and trailing Python whitespace, as `int` does before
parsing its argument. -/
def stripPy (cs : List Char) : List Char :=
  ((cs.dropWhile isPySpace).reverse.dropWhile isPySpace).reverse

/-- Python `int` applied to a character sequence: strip surrounding
whitespace, then parse sign and digit part. -/
def pyIntChars (cs : List Char) : Option Int :=
  pyIntCore (stripPy cs)

/-- Python `int` applied to a string. -/
def pyIntStr (s : String) : Option Int :=
  pyIntChars s.toList

/-- The regular expression step of `getNumericVal`:
`re.match('^age\-(\d+)$', s)` returns the captured digit group when the
string is the literal prefix `age-` followed by one or more digits and
then either the end of the string or one single trailing newline (the
un-flagged `$` anchor also matches just before a terminal newline). -/
def ageMatch (cs : List Char) : Option (List Char) :=
  match cs with
  | a :: g :: e :: h :: rest =>
    if a = 'a' ∧ g = 'g' ∧ e = 'e' ∧ h = '-' then
      let ds := rest.takeWhile isDigitC
      let t := rest.dropWhile isDigitC
      if ds ≠ [] ∧ (t = [] ∨ t = ['\n']) then some ds else none
    else none
  | _ => none

/-- The notebook's age normalizer:

    def getNumericVal(col):
        try:
          return int(col)
        except ValueError:
          match = re.match('^age\-(\d+)$', col)
          if match:
            try:
              return int(match.group(1))
            except ValueError:
              return None
          return None

`none` models Python's `None` sentinel. -/
def getNumericVal (s : String) : Option Int :=
  match pyIntStr s with
  | some n => some n
  | none =>
    match ageMatch s.toList with
    | some g =>
      match pyIntChars g with
      | some n => some n
      | none => none
    | none => none

/-- The notebook's salutation-to-gender mapper:

    def deriveGender(col):
        if col in ['Mr.', 'Master.']:
            return 'male'
        elif col in ['Mrs.', 'Miss.']:
            return 'female'
        else:
            return 'unknown'
-/
def deriveGender (s : String) : String :=
  if s ∈ (["Mr.", "Master."] : List String) then "male"
  else if s ∈ (["Mrs.", "Miss."] : List String) then "female"
  else "unknown"

/-- A character satisfying `isDigitC` has code between 48 and 57. -/
theorem isDigitC_toNat {c : Char} (h : isDigitC c = true) :
    48 ≤ c.toNat ∧ c.toNat ≤ 57 := by
  simpa [isDigitC] using h

/-- An ASCII digit is not Python whitespace. -/
theorem isPySpace_eq_false_of_digit {c : Char} (h : isDigitC c = true) :
    isPySpace c = false := by
  obtain ⟨h1, h2⟩ := isDigitC_toNat h
  simp only [isPySpace, Bool.or_eq_false_iff, decide_eq_false_iff_not]
  omega

/-- An ASCII digit is not the underscore character. -/
theorem ne_underscore_of_digit {c : Char} (h : isDigitC c = true) : ¬ (c = '_') := by
  intro he
  subst he
  exact absurd h (by decide)

/-- `dropWhile` leaves a list unchanged when no element satisfies the
predicate. -/
theorem dropWhile_eq_self_of_all {p : Char → Bool} {cs : List Char}
    (h : ∀ c ∈ cs, p c = false) : cs.dropWhile p = cs := by
  cases cs with
  | nil => rfl
  | cons c rest =>
    exact List.dropWhile_cons_of_neg (by simp [h c (List.mem_cons_self c rest)])

/-- Stripping Python whitespace from a string with no whitespace characters
is the identity. -/
theorem stripPy_eq_self {cs : List Char} (h : ∀ c ∈ cs, isPySpace c = false) :
    stripPy cs = cs := by
  unfold stripPy
  rw [dropWhile_eq_self_of_all h,
      dropWhile_eq_self_of_all (fun c hc => h c (List.mem_reverse.mp hc)),
      List.reverse_reverse]

/-- Stripping Python whitespace removes one trailing newline from a
nonempty whitespace-free body. -/
theorem stripPy_append_newline {cs : List Char} (hne : cs ≠ [])
    (h : ∀ c ∈ cs, isPySpace c = false) : stripPy (cs ++ ['\n']) = cs := by
  obtain ⟨c, rest, rfl⟩ := List.exists_cons_of_ne_nil hne
  unfold stripPy
  rw [List.cons_append,
      List.dropWhile_cons_of_neg (by simp [h c (List.mem_cons_self c rest)]),
      ← List.cons_append, List.reverse_append, List.reverse_singleton,
      List.singleton_append,
      List.dropWhile_cons_of_pos (by decide),
      dropWhile_eq_self_of_all (fun x hx => h x (List.mem_reverse.mp hx)),
      List.reverse_reverse]

/-- The tail of a pure digit run satisfies the digit-part grammar's
continuation. -/
theorem digitTail_of_digits :
    ∀ cs : List Char, (∀ c ∈ cs, isDigitC c = true) → digitTail cs false = true
  | [], _ => rfl
  | c :: rest, h => by
    have hc := h c (List.mem_cons_self c rest)
    have ht := digitTail_of_digits rest (fun x hx => h x (List.mem_cons_of_mem c hx))
    simp [digitTail, ne_underscore_of_digit hc, hc, ht]

/-- A nonempty pure digit run satisfies Python's digit-part grammar. -/
theorem validDigitPart_of_digits {cs : List Char} (hne : cs ≠ [])
    (h : ∀ c ∈ cs, isDigitC c = true) : validDigitPart cs = true := by
  obtain ⟨c, rest, rfl⟩ := List.exists_cons_of_ne_nil hne
  have hc := h c (List.mem_cons_self c rest)
  have ht := digitTail_of_digits rest (fun x hx => h x (List.mem_cons_of_mem c hx))
  simp [validDigitPart, hc, ht]

/-- Underscore removal is the identity on a pure digit run. -/
theorem stripUnderscores_of_digits {cs : List Char}
    (h : ∀ c ∈ cs, isDigitC c = true) : stripUnderscores cs = cs := by
  unfold stripUnderscores
  rw [List.filter_eq_self]
  intro a ha
  simp [ne_underscore_of_digit (h a ha)]

/-- Python's `int`, after whitespace stripping, evaluates a nonempty pure
digit run to its decimal value. -/
theorem pyIntCore_digits {cs : List Char} (hne : cs ≠ [])
    (h : ∀ c ∈ cs, isDigitC c = true) :
    pyIntCore cs = some ((digitsVal cs : Int)) := by
  obtain ⟨c, rest, rfl⟩ := List.exists_cons_of_ne_nil hne
  have hc := h c (List.mem_cons_self c rest)
  have hplus : ¬ (c = '+') := by
    intro he
    subst he
    exact absurd hc (by decide)
  have hminus : ¬ (c = '-') := by
    intro he
    subst he
    exact absurd hc (by decide)
  simp [pyIntCore, hplus, hminus,
        validDigitPart_of_digits (List.cons_ne_nil c rest) h,
        stripUnderscores_of_digits h]

/-- Python's `int` on a nonempty pure digit string returns its decimal
value. -/
theorem pyIntChars_digits {cs : List Char} (hne : cs ≠ [])
    (h : ∀ c ∈ cs, isDigitC c = true) :
    pyIntChars cs = some ((digitsVal cs : Int)) := by
  unfold pyIntChars
  rw [stripPy_eq_self (fun c hc => isPySpace_eq_false_of_digit (h c hc))]
  exact pyIntCore_digits hne h

/-- Python's `int` fails on any whitespace-stripped string starting with
the letter `a` (in particular on `age-...` strings). -/
theorem pyIntCore_age (t : List Char) :
    pyIntCore ('a' :: 'g' :: 'e' :: '-' :: t) = none := by
  have hva : validDigitPart ('a' :: 'g' :: 'e' :: '-' :: t) = false := by
    have ha : isDigitC 'a' = false := by decide
    simp [validDigitPart, ha]
  have hp : ¬ ('a' = '+') := by decide
  have hm : ¬ ('a' = '-') := by decide
  simp [pyIntCore, hva, hp, hm]

/-- Every character of `age-` followed by digits is non-whitespace. -/
theorem age_digits_nonspace {ds : List Char} (h : ∀ c ∈ ds, isDigitC c = true) :
    ∀ c ∈ ('a' :: 'g' :: 'e' :: '-' :: ds), isPySpace c = false := by
  intro c hc
  simp only [List.mem_cons] at hc
  rcases hc with rfl | rfl | rfl | rfl | hc
  · decide
  · decide
  · decide
  · decide
  · exact isPySpace_eq_false_of_digit (h c hc)

/-- The regular expression matches `age-` followed by a nonempty digit run
and captures the digit run. -/
theorem ageMatch_digits_only {ds : List Char} (hne : ds ≠ [])
    (h : ∀ c ∈ ds, isDigitC c = true) :
    ageMatch ('a' :: 'g' :: 'e' :: '-' :: ds) = some ds := by
  simp [ageMatch, List.takeWhile_eq_self_iff.mpr h,
        List.dropWhile_eq_nil_iff.mpr h, hne]

/-- The regular expression also matches when a single trailing newline
follows the digit run, still capturing only the digits. -/
theorem ageMatch_trailing_newline {ds : List Char} (hne : ds ≠ [])
    (h : ∀ c ∈ ds, isDigitC c = true) :
    ageMatch ('a' :: 'g' :: 'e' :: '-' :: (ds ++ ['\n'])) = some ds := by
  have hnl : isDigitC '\n' = false := by decide
  have ht : (ds ++ ['\n']).takeWhile isDigitC = ds := by
    rw [List.takeWhile_append_of_pos h]
    simp [hnl]
  have hd : (ds ++ ['\n']).dropWhile isDigitC = ['\n'] := by
    rw [List.dropWhile_append_of_pos h]
    simp [hnl]
  simp [ageMatch, ht, hd, hne]

/-- Whatever the regular expression captures is a nonempty run of ASCII
digits. -/
theorem ageMatch_inv {cs g : List Char} (hm : ageMatch cs = some g) :
    g ≠ [] ∧ ∀ c ∈ g, isDigitC c = true := by
  cases cs with
  | nil => exact absurd hm (by simp [ageMatch])
  | cons a cs1 =>
  cases cs1 with
  | nil => exact absurd hm (by simp [ageMatch])
  | cons b cs2 =>
  cases cs2 with
  | nil => exact absurd hm (by simp [ageMatch])
  | cons e cs3 =>
  cases cs3 with
  | nil => exact absurd hm (by simp [ageMatch])
  | cons d rest =>
  simp only [ageMatch] at hm
  split_ifs at hm with h1 h2
  · injection hm with hg
    subst hg
    exact ⟨h2.1, fun c hc => List.mem_takeWhile_imp hc⟩

/-- The gender mapper can only ever produce one of its three output
tokens. -/
theorem deriveGender_total (s : String) :
    deriveGender s = "male" ∨ deriveGender s = "female" ∨ deriveGender s = "unknown" := by
  unfold deriveGender
  split_ifs <;> simp

/-- Claim C1 counterexample: the input `"-5"` is normalized to the
negative integer `-5` by the direct integer parse path, so a normalized
age value can be negative, contrary to the claim's non-negativity
invariant. -/
theorem claim_C1_counterexample :
    getNumericVal "-5" = some (-5) ∧ (-5 : Int) < 0 :=
  ⟨by decide, by decide⟩

/-- Claim C1 (amended): for every input string, `getNumericVal` returns an
integer or the `none` sentinel, and any integer produced by the `age-`
fallback path (taken exactly when the direct integer parse fails) is
non-negative; negative results can arise only from the direct integer
parse path.  `deriveGender` always returns one of the closed set
male / female / unknown. -/
theorem claim_C1_amended (s : String) :
    (deriveGender s = "male" ∨ deriveGender s = "female" ∨ deriveGender s = "unknown") ∧
    (∀ n : Int, pyIntStr s = none → getNumericVal s = some n → 0 ≤ n) := by
  refine ⟨deriveGender_total s, ?_⟩
  intro n h1 h2
  unfold getNumericVal at h2
  rw [h1] at h2
  cases hm : ageMatch s.toList with
  | none =>
    simp only [hm] at h2
    exact Option.noConfusion h2
  | some g =>
    obtain ⟨hne, hdig⟩ := ageMatch_inv hm
    simp only [hm, pyIntChars_digits hne hdig, Option.some.injEq] at h2
    omega

/-- Claim C1 witness: at the input `"age-33"` the direct parse fails, the
fallback produces 33, and the amended theorem yields its non-negativity. -/
theorem claim_C1_witness :
    pyIntStr "age-33" = none ∧ getNumericVal "age-33" = some 33 ∧ (0 : Int) ≤ 33 :=
  ⟨by decide, by decide, (claim_C1_amended "age-33").2 33 (by decide) (by decide)⟩

/-- Claim C2 counterexample: the whitespace-padded input `" 45 "` does not
fall through to the sentinel — Python's integer parse strips surrounding
whitespace, so `getNumericVal " 45 "` is `some 45`, contrary to the
claim that values with extra whitespace map to unknown. -/
theorem claim_C2_counterexample :
    getNumericVal " 45 " = some 45 ∧ ¬ (getNumericVal " 45 " = none) :=
  ⟨by decide, by decide⟩

/-- Claim C2 (amended): every input string on which the direct integer
parse fails and the `age-` pattern does not match is mapped to the `none`
sentinel without any error; in particular the empty string, non-numeric
garbage such as `"thirty"`, and whitespace placements that break both
parse paths such as `" age-33"` yield the sentinel — but a
whitespace-padded integer such as `" 45 "` is parsed directly, because
the integer parse strips surrounding whitespace. -/
theorem claim_C2_amended :
    (∀ s : String, pyIntStr s = none → ageMatch s.toList = none → getNumericVal s = none) ∧
    getNumericVal "" = none ∧ getNumericVal "thirty" = none ∧
    getNumericVal " age-33" = none ∧ getNumericVal " 45 " = some 45 := by
  refine ⟨?_, by decide, by decide, by decide, by decide⟩
  intro s h1 h2
  simp only [getNumericVal, h1, h2]

/-- Claim C2 witness: at the input `"thirty"` both parse paths fail and
the amended theorem returns the sentinel. -/
theorem claim_C2_witness :
    pyIntStr "thirty" = none ∧ ageMatch "thirty".toList = none ∧
    getNumericVal "thirty" = none :=
  ⟨by decide, by decide, claim_C2_amended.1 "thirty" (by decide) (by decide)⟩

/-- Claim C3: both normalizers are total — for every string input
`getNumericVal` returns either the sentinel or an integer, and
`deriveGender` returns one of its three declared tokens; in this
embedding both are total functions, so no input raises or propagates a
failure. -/
theorem claim_C3_totality (s : String) :
    (getNumericVal s = none ∨ ∃ n : Int, getNumericVal s = some n) ∧
    (deriveGender s = "male" ∨ deriveGender s = "female" ∨ deriveGender s = "unknown") := by
  refine ⟨?_, deriveGender_total s⟩
  cases h : getNumericVal s with
  | none => exact Or.inl rfl
  | some n => exact Or.inr ⟨n, rfl⟩

/-- Claim C4: every input string that Python's integer conversion parses
directly is returned as that integer by `getNumericVal`. -/
theorem claim_C4_direct_parse (s : String) (n : Int) (h : pyIntStr s = some n) :
    getNumericVal s = some n := by
  simp only [getNumericVal, h]

/-- Claim C4 witness: `getNumericVal "45" = some 45`. -/
theorem claim_C4_witness :
    pyIntStr "45" = some 45 ∧ getNumericVal "45" = some 45 :=
  ⟨by decide, claim_C4_direct_parse "45" 45 (by decide)⟩

/-- Claim C5: every string of the shape `age-` followed by one or more
decimal digits and nothing else is normalized to the integer value of the
digit run. -/
theorem claim_C5_age_pattern (s : String) (ds : List Char)
    (hs : s.toList = 'a' :: 'g' :: 'e' :: '-' :: ds) (hne : ds ≠ [])
    (h : ∀ c ∈ ds, isDigitC c = true) :
    getNumericVal s = some ((digitsVal ds : Int)) := by
  have h1 : pyIntStr s = none := by
    unfold pyIntStr pyIntChars
    rw [hs, stripPy_eq_self (age_digits_nonspace h), pyIntCore_age]
  have h2 : ageMatch s.toList = some ds := by
    rw [hs]
    exact ageMatch_digits_only hne h
  simp only [getNumericVal, h1, h2, pyIntChars_digits hne h]

/-- Claim C5 witness: `getNumericVal "age-33" = some 33`. -/
theorem claim_C5_witness :
    "age-33".toList = 'a' :: 'g' :: 'e' :: '-' :: ['3', '3'] ∧
    getNumericVal "age-33" = some 33 := by
  refine ⟨by decide, ?_⟩
  have h := claim_C5_age_pattern "age-33" ['3', '3'] (by decide) (by decide) (by decide)
  rw [h]
  decide

/-- Claim C6: the gender mapper is an exact literal-string lookup — the
four salutations map to their genders and every other string maps to
unknown. -/
theorem claim_C6_exact_lookup :
    deriveGender "Mr." = "male" ∧ deriveGender "Master." = "male" ∧
    deriveGender "Mrs." = "female" ∧ deriveGender "Miss." = "female" ∧
    ∀ s : String, s ∉ (["Mr.", "Master.", "Mrs.", "Miss."] : List String) →
      deriveGender s = "unknown" := by
  refine ⟨by decide, by decide, by decide, by decide, ?_⟩
  intro s hs
  simp only [List.mem_cons, not_or] at hs
  obtain ⟨h1, h2, h3, h4, -⟩ := hs
  unfold deriveGender
  split_ifs with g1 g2
  · simp only [List.mem_cons, List.not_mem_nil, or_false] at g1
    rcases g1 with rfl | rfl
    · exact absurd rfl h1
    · exact absurd rfl h2
  · simp only [List.mem_cons, List.not_mem_nil, or_false] at g2
    rcases g2 with rfl | rfl
    · exact absurd rfl h3
    · exact absurd rfl h4
  · rfl

/-- Claim C6 witness: the unrecognized title `"Dr."` maps to unknown. -/
theorem claim_C6_witness :
    ("Dr." ∉ (["Mr.", "Master.", "Mrs.", "Miss."] : List String)) ∧
    deriveGender "Dr." = "unknown" :=
  ⟨by decide, claim_C6_exact_lookup.2.2.2.2 "Dr." (by decide)⟩

/-- Claim C7: applying the gender mapper to any of its own output tokens
yields unknown, and hence the mapper composed with itself is constantly
unknown. -/
theorem claim_C7_reapplication :
    (deriveGender "male" = "unknown" ∧ deriveGender "female" = "unknown" ∧
     deriveGender "unknown" = "unknown") ∧
    ∀ s : String, deriveGender (deriveGender s) = "unknown" := by
  refine ⟨⟨by decide, by decide, by decide⟩, ?_⟩
  intro s
  rcases deriveGender_total s with h | h | h <;> rw [h] <;> decide

/-- Claim C8: a string of the shape `age-`, digits, and one single
trailing newline is still normalized to the digit value, because the
regular expression's end anchor also matches just before a terminal
newline. -/
theorem claim_C8_trailing_newline (s : String) (ds : List Char)
    (hs : s.toList = 'a' :: 'g' :: 'e' :: '-' :: (ds ++ ['\n'])) (hne : ds ≠ [])
    (h : ∀ c ∈ ds, isDigitC c = true) :
    getNumericVal s = some ((digitsVal ds : Int)) := by
  have h1 : pyIntStr s = none := by
    unfold pyIntStr pyIntChars
    rw [hs,
        show ('a' :: 'g' :: 'e' :: '-' :: (ds ++ ['\n'])) =
          ('a' :: 'g' :: 'e' :: '-' :: ds) ++ ['\n'] by simp,
        stripPy_append_newline (List.cons_ne_nil 'a' _) (age_digits_nonspace h),
        pyIntCore_age]
  have h2 : ageMatch s.toList = some ds := by
    rw [hs]
    exact ageMatch_trailing_newline hne h
  simp only [getNumericVal, h1, h2, pyIntChars_digits hne h]

/-- Claim C8 witness: `getNumericVal "age-33\n" = some 33`. -/
theorem claim_C8_witness :
    "age-33\n".toList = 'a' :: 'g' :: 'e' :: '-' :: (['3', '3'] ++ ['\n']) ∧
    getNumericVal "age-33\n" = some 33 := by
  refine ⟨by decide, ?_⟩
  have h := claim_C8_trailing_newline "age-33\n" ['3', '3'] (by decide) (by decide) (by decide)
  rw [h]
  decide

/-- Claim C9: the inner error handler of `getNumericVal` is dead code —
whenever the regular expression matches, the captured group is a nonempty
digit run, on which the integer conversion always succeeds, so the inner
sentinel branch is unreachable. -/
theorem claim_C9_inner_handler_dead (s : String) (g : List Char)
    (hm : ageMatch s.toList = some g) :
    pyIntChars g = some ((digitsVal g : Int)) := by
  obtain ⟨hne, hdig⟩ := ageMatch_inv hm
  exact pyIntChars_digits hne hdig

/-- Claim C9 witness: on `"age-7"` the regular expression captures `"7"`
and the integer conversion of the captured group succeeds. -/
theorem claim_C9_witness :
    ageMatch "age-7".toList = some ['7'] ∧ pyIntChars ['7'] = some 7 := by
  refine ⟨by decide, ?_⟩
  have h := claim_C9_inner_handler_dead "age-7" ['7'] (by decide)
  rw [h]
  decide

/-- Claim C10: a string consisting of an explicit plus sign followed by
one or more decimal digits is accepted by the direct integer parse path
and normalized to the digit value. -/
theorem claim_C10_plus_sign (s : String) (ds : List Char)
    (hs : s.toList = '+' :: ds) (hne : ds ≠ [])
    (h : ∀ c ∈ ds, isDigitC c = true) :
    getNumericVal s = some ((digitsVal ds : Int)) := by
  have hns : ∀ c ∈ ('+' :: ds), isPySpace c = false := by
    intro c hc
    rcases List.mem_cons.mp hc with rfl | hc
    · decide
    · exact isPySpace_eq_false_of_digit (h c hc)
  have h1 : pyIntStr s = some ((digitsVal ds : Int)) := by
    unfold pyIntStr pyIntChars
    rw [hs, stripPy_eq_self hns]
    simp [pyIntCore, validDigitPart_of_digits hne h, stripUnderscores_of_digits h]
  simp only [getNumericVal, h1]

/-- Claim C10 witness: `getNumericVal "+45" = some 45`. -/
theorem claim_C10_witness :
    "+45".toList = '+' :: ['4', '5'] ∧ getNumericVal "+45" = some 45 := by
  refine ⟨by decide, ?_⟩
  have h := claim_C10_plus_sign "+45" ['4', '5'] (by decide) (by decide) (by decide)
  rw [h]
  decide
